import Mathlib

/-!
Verification of the Screentool viewport compositing core.

Shallow embedding of `src/types.ts`, `src/imageUtils.ts`, the device registry
(`src/unnamed/part_000` / `constants.ts`) and the post-upload normalizer inset
policy of `processFile` (`src/unnamed/part_005`).  JavaScript numbers are
modelled as rationals; `Uint8ClampedArray` stores are modelled with explicit
clamping and round-half-to-even; fallible operations (missing 2d context,
failed blob encoding, out-of-bounds pixel reads) return `Option`.
-/

/-! ## Data model (`src/types.ts`) -/

inductive Platform where
  | ANDROID
  | APPLE
deriving DecidableEq

inductive DeviceType where
  | PHONE
  | TABLET_7
  | TABLET_10
  | CHROMEBOOK
  | IPHONE
  | IPHONE_61
  | IPAD
deriving DecidableEq

inductive FitMode where
  | FIT
  | STRETCH
  | AUTOFIT
deriving DecidableEq

inductive ExportMode where
  | RECTANGLE
  | FRAME
deriving DecidableEq

structure CropArea where
  x : ℚ
  y : ℚ
  width : ℚ
  height : ℚ
deriving DecidableEq

structure ImageAdjustments where
  brightness : ℚ
  contrast : ℚ
  saturation : ℚ
  sharpness : ℚ
deriving DecidableEq

/-- Device spec: pixel dimensions, ecosystem, tablet flag.  In the source
`isTablet` is an optional boolean (absent means false). -/
structure DeviceSpec where
  id : DeviceType
  width : ℕ
  height : ℕ
  platform : Platform
  isTablet : Bool := false
deriving DecidableEq

/-! ## Device registry (`constants.ts`, `src/unnamed/part_000`) -/

def DEVICE_SPECS : DeviceType → DeviceSpec
  | DeviceType.PHONE => { id := DeviceType.PHONE, width := 1080, height := 1920, platform := Platform.ANDROID }
  | DeviceType.TABLET_7 => { id := DeviceType.TABLET_7, width := 1200, height := 1920, platform := Platform.ANDROID, isTablet := true }
  | DeviceType.TABLET_10 => { id := DeviceType.TABLET_10, width := 1600, height := 2560, platform := Platform.ANDROID, isTablet := true }
  | DeviceType.CHROMEBOOK => { id := DeviceType.CHROMEBOOK, width := 1920, height := 1080, platform := Platform.ANDROID }
  | DeviceType.IPHONE => { id := DeviceType.IPHONE, width := 1290, height := 2796, platform := Platform.APPLE }
  | DeviceType.IPHONE_61 => { id := DeviceType.IPHONE_61, width := 1179, height := 2556, platform := Platform.APPLE }
  | DeviceType.IPAD => { id := DeviceType.IPAD, width := 2048, height := 2732, platform := Platform.APPLE, isTablet := true }

/-! ## Decoded images

A decoded bitmap: integer dimensions plus an RGB pixel function. -/

structure Img where
  width : ℕ
  height : ℕ
  pix : ℕ → ℕ → ℕ × ℕ × ℕ

/-- `getPixel` from `detectBorders`: reading outside the image data is an
out-of-bounds access, modelled as `none`. -/
def getPixel (img : Img) (x y : ℕ) : Option (ℕ × ℕ × ℕ) :=
  if x < img.width ∧ y < img.height then some (img.pix x y) else none

/-- `isSameColor` from `detectBorders`: per-channel tolerance of 5. -/
def isSameColor (c1 c2 : ℕ × ℕ × ℕ) : Bool :=
  decide (((c1.1 : ℤ) - (c2.1 : ℤ)).natAbs < 5) &&
  decide (((c1.2.1 : ℤ) - (c2.2.1 : ℤ)).natAbs < 5) &&
  decide (((c1.2.2 : ℤ) - (c2.2.2 : ℤ)).natAbs < 5)

/-- One row scan of `detectBorders`: the row is uniform when every pixel in it
matches the edge color.  Reading the row at all requires `row < height`. -/
def rowUniform (img : Img) (edge : ℕ × ℕ × ℕ) (row : ℕ) : Option Bool :=
  if row < img.height then
    some ((List.range img.width).all fun x => isSameColor (img.pix x row) edge)
  else none

/-- The `while (top < bottom)` loop of `detectBorders`: advance `top` past
uniform rows. -/
def scanTop (img : Img) (edge : ℕ × ℕ × ℕ) (bottom : ℕ) (top : ℕ) : Option ℕ :=
  if top < bottom then
    match rowUniform img edge top with
    | none => none
    | some true => scanTop img edge bottom (top + 1)
    | some false => some top
  else some top
termination_by bottom - top
decreasing_by omega

/-- The `while (bottom > top)` loop of `detectBorders`: retreat `bottom` past
uniform rows. -/
def scanBottom (img : Img) (edge : ℕ × ℕ × ℕ) (top : ℕ) (bottom : ℕ) : Option ℕ :=
  if top < bottom then
    match rowUniform img edge bottom with
    | none => none
    | some true => scanBottom img edge top (bottom - 1)
    | some false => some bottom
  else some bottom
termination_by bottom
decreasing_by omega

/-- `detectBorders` (`src/imageUtils.ts`).  `hasCtx` models whether a 2d
raster context could be acquired; without one the identity crop is returned.
`left`/`right` are initialized and never advanced, faithful to the source. -/
def detectBorders (hasCtx : Bool) (img : Img) : Option CropArea :=
  if hasCtx = false then some ⟨0, 0, 100, 100⟩
  else
    match getPixel img 0 0 with
    | none => none
    | some edgeColor =>
      match scanTop img edgeColor (img.height - 1) 0 with
      | none => none
      | some top =>
        match scanBottom img edgeColor top (img.height - 1) with
        | none => none
        | some bottom =>
          let left : ℕ := 0
          let right : ℕ := img.width - 1
          some ⟨((left : ℚ) / (img.width : ℚ)) * 100,
                ((top : ℚ) / (img.height : ℚ)) * 100,
                (((right : ℚ) - (left : ℚ) + 1) / (img.width : ℚ)) * 100,
                (((bottom : ℚ) - (top : ℚ) + 1) / (img.height : ℚ)) * 100⟩

/-! ## Post-upload normalizer inset (`processFile`, `src/unnamed/part_005`) -/

/-- The Apple-only inset applied to the detected crop inside `processFile`:
modal (8%) when either dimension of the detected crop is below 95, otherwise
standard (4%); symmetric, computed from the crop's own dimensions. -/
def appleInsetRect (r : CropArea) : CropArea :=
  let insetFactor : ℚ := if r.width < 95 ∨ r.height < 95 then 8 / 100 else 4 / 100
  let insetW := r.width * insetFactor
  let insetH := r.height * insetFactor
  ⟨r.x + insetW, r.y + insetH, r.width - insetW * 2, r.height - insetH * 2⟩

/-- The normalization rectangle produced by `processFile` for a detected crop:
Apple targets get the inset, Android targets are left as detected. -/
def normalizeRect (p : Platform) (r : CropArea) : CropArea :=
  if p = Platform.APPLE then appleInsetRect r else r

/-! ## Sharpening pass (`applySharpness`, `src/imageUtils.ts`)

The canvas byte array is modelled as a function from byte index to a stored
value in 0..255.  A `Uint8ClampedArray` store clamps to `[0, 255]` and rounds
to the nearest integer, ties to even. -/

/-- Round half to even, the IEEE rounding used by `Uint8ClampedArray`. -/
def roundHalfEven (q : ℚ) : ℤ :=
  let f := ⌊q⌋
  if q - f < 1 / 2 then f
  else if 1 / 2 < q - f then f + 1
  else if f % 2 = 0 then f else f + 1

/-- Store into a `Uint8ClampedArray` slot: clamp to `[0, 255]`, round half to
even. -/
def clampU8 (q : ℚ) : ℕ :=
  if q ≤ 0 then 0 else if 255 ≤ q then 255 else (roundHalfEven q).toNat

/-- The 3×3 kernel of `applySharpness` for `a = amount / 300`, in row-major
order exactly as written in the source. -/
def kernelOf (a : ℚ) : List ℚ :=
  [0, -a, 0,
   -a, 1 + 4 * a, -a,
   0, -a, 0]

/-- The inner convolution sum of `applySharpness` for channel `c` at cell
`(x, y)`: `ky`/`kx` run over 0..2 standing for the source's −1..1 offsets, so
the tap index is `((y + ky − 1) * w + (x + kx − 1)) * 4 + c` and the kernel
entry is `kernel[ky * 3 + kx]`.  Only invoked with `1 ≤ x` and `1 ≤ y`. -/
def convSum (w : ℕ) (data : ℕ → ℕ) (ker : List ℚ) (x y c : ℕ) : ℚ :=
  (List.range 3).foldl (fun s ky =>
    (List.range 3).foldl (fun s kx =>
      s + (data (((y + ky - 1) * w + (x + kx - 1)) * 4 + c) : ℚ) * ker.getD (ky * 3 + kx) 0) s) 0

/-- The body of the two nested pixel loops of `applySharpness` for one cell
`(x, y)`: write the three clamped convolved color channels, then copy the
alpha byte from the input. -/
def cellWrite (w : ℕ) (ker : List ℚ) (data : ℕ → ℕ) (out : ℕ → ℕ) (y x : ℕ) : ℕ → ℕ :=
  let base := (y * w + x) * 4
  let out2 := (List.range 3).foldl
    (fun o c => Function.update o (base + c) (clampU8 (convSum w data ker x y c))) out
  Function.update out2 (base + 3) (data (base + 3))

/-- `applySharpness` (`src/imageUtils.ts`): no-op for `amount ≤ 0`; otherwise
build a zero-initialized output buffer, write every interior pixel
(`1 ≤ y < height − 1`, `1 ≤ x < width − 1`), and replace the whole canvas with
that buffer (`putImageData`). -/
def applySharpness (width height : ℕ) (amount : ℚ) (data : ℕ → ℕ) : ℕ → ℕ :=
  if amount ≤ 0 then data
  else
    let ker := kernelOf (amount / 300)
    (List.range' 1 (height - 1 - 1)).foldl (fun out y =>
      (List.range' 1 (width - 1 - 1)).foldl (fun out x => cellWrite width ker data out y x) out)
      (fun _ => 0)

/-! ## Viewport compositor geometry (`processImage`, `src/imageUtils.ts`) -/

structure Rect where
  x : ℚ
  y : ℚ
  w : ℚ
  h : ℚ
deriving DecidableEq

/-- The target content rectangle of `processImage`: start with the full
canvas; inset by the Apple breathing room when the spec is Apple and the fit
mode is FIT; if the export mode is FRAME, overwrite the rectangle entirely
with the frame padding inset (10% of `spec.width` for Android tablets, 12%
otherwise). -/
def targetRect (spec : DeviceSpec) (fitMode : FitMode) (exportMode : ExportMode) : Rect :=
  let t0 : Rect := ⟨0, 0, (spec.width : ℚ), (spec.height : ℚ)⟩
  let t1 : Rect :=
    if spec.platform = Platform.APPLE ∧ fitMode = FitMode.FIT then
      let appleBreathingRoom : ℚ := (spec.width : ℚ) * (4 / 100)
      ⟨t0.x + appleBreathingRoom, t0.y + appleBreathingRoom,
       t0.w - appleBreathingRoom * 2, t0.h - appleBreathingRoom * 2⟩
    else t0
  if exportMode = ExportMode.FRAME then
    let framePadding : ℚ :=
      if spec.platform = Platform.ANDROID ∧ spec.isTablet = true then
        (spec.width : ℚ) * (10 / 100)
      else (spec.width : ℚ) * (12 / 100)
    ⟨framePadding, framePadding,
     (spec.width : ℚ) - framePadding * 2, (spec.height : ℚ) - framePadding * 2⟩
  else t1

/-- The fit-resolution step of `processImage`: compute the destination draw
rectangle from the target rectangle and the source sampling dimensions.
`drawW/H/X/Y` start at the target rectangle; FIT letterboxes, AUTOFIT covers
(with the Android-tablet height-locked special case first), STRETCH falls
through unchanged. -/
def resolveDraw (spec : DeviceSpec) (fitMode : FitMode) (t : Rect) (sw sh : ℚ) : Rect :=
  let imgRat := sw / sh
  let targetRat := t.w / t.h
  if fitMode = FitMode.FIT then
    if imgRat > targetRat then
      ⟨t.x, t.y + (t.h - t.w / imgRat) / 2, t.w, t.w / imgRat⟩
    else
      ⟨t.x + (t.w - t.h * imgRat) / 2, t.y, t.h * imgRat, t.h⟩
  else if fitMode = FitMode.AUTOFIT then
    if spec.platform = Platform.ANDROID ∧ spec.isTablet = true ∧ imgRat < targetRat then
      ⟨t.x + (t.w - t.h * imgRat) / 2, t.y, t.h * imgRat, t.h⟩
    else if imgRat > targetRat then
      ⟨t.x + (t.w - t.h * imgRat) / 2, t.y, t.h * imgRat, t.h⟩
    else
      ⟨t.x, t.y + (t.h - t.w / imgRat) / 2, t.w, t.w / imgRat⟩
  else t

/-- The platform's rasterizer for the painting steps of `processImage`
(background fill, chassis drawing in FRAME mode, the clipped filtered
`drawImage`): a fixed deterministic function from all the drawing inputs to
the resulting canvas bytes. -/
def DrawSem : Type :=
  Img → DeviceSpec → FitMode → ExportMode → ImageAdjustments → CropArea → ℕ → Rect → Rect → ℕ → ℕ

/-- Result of a successful `processImage` run: the output canvas dimensions,
the computed target and draw rectangles, and the final canvas bytes. -/
structure RenderResult where
  outW : ℕ
  outH : ℕ
  target : Rect
  draw : Rect
  raster : ℕ → ℕ

/-- `processImage` (`src/imageUtils.ts`).  `hasCtx` models 2d-context
acquisition (rejecting with `No context` otherwise) and `blobOk` models
`canvas.toBlob` succeeding (rejecting with `Processing failed` otherwise).
The canvas is sized to `spec.width × spec.height`; the source sampling
rectangle resolves `cropArea` against the master image's pixel dimensions;
painting is delegated to the rasterizer `sem`; the sharpening pass runs on
the whole canvas when `adjustments.sharpness > 0`. -/
def processImage (sem : DrawSem) (hasCtx blobOk : Bool) (img : Img) (spec : DeviceSpec)
    (fitMode : FitMode) (exportMode : ExportMode) (adjustments : ImageAdjustments)
    (cropArea : CropArea) (frameColor : ℕ) : Option RenderResult :=
  if hasCtx = false then none
  else
    let t := targetRect spec fitMode exportMode
    let sw : ℚ := cropArea.width / 100 * (img.width : ℚ)
    let sh : ℚ := cropArea.height / 100 * (img.height : ℚ)
    let d := resolveDraw spec fitMode t sw sh
    let canvas0 : ℕ → ℕ := sem img spec fitMode exportMode adjustments cropArea frameColor t d
    let canvas1 : ℕ → ℕ :=
      if 0 < adjustments.sharpness then applySharpness spec.width spec.height adjustments.sharpness canvas0
      else canvas0
    if blobOk = true then some ⟨spec.width, spec.height, t, d, canvas1⟩ else none

/-! ## Concrete fixtures used by witnesses -/

/-- A trivial rasterizer: paints every byte 0. -/
def sem0 : DrawSem := fun _ _ _ _ _ _ _ _ _ _ => 0

/-- A small concrete master image. -/
def img0 : Img := ⟨10, 10, fun _ _ => (0, 0, 0)⟩

/-- Neutral adjustments. -/
def adj0 : ImageAdjustments := ⟨100, 100, 100, 0⟩

/-- The identity crop. -/
def crop0 : CropArea := ⟨0, 0, 100, 100⟩

/-- A default render result, used only to name the value inside an `Option`. -/
def rdef : RenderResult := ⟨0, 0, ⟨0, 0, 0, 0⟩, ⟨0, 0, 0, 0⟩, fun _ => 0⟩

/-- A uniform-color 100×100 image. -/
def uniformImg : Img := ⟨100, 100, fun _ _ => (5, 5, 5)⟩

/-! ## Claim theorems -/

/-- C7: if the border detector cannot acquire a raster drawing context,
`detectBorders` returns the identity crop `{x:0, y:0, width:100, height:100}`
instead of failing, for every input image. -/
theorem C7_no_context_identity (img : Img) :
    detectBorders false img = some ⟨0, 0, 100, 100⟩ := rfl

/-- C2 counterexample: a detected crop with `width = 98`, `height = 80` covers
at least 95% of the source in one dimension, so the claim classifies it
"standard" with a 4% inset; the code classifies it modal and insets its x by
8% of the crop width, not 4%. -/
theorem C2_counterexample :
    (normalizeRect Platform.APPLE ⟨0, 0, 98, 80⟩).x = 98 * (8 / 100) ∧
    (98 : ℚ) * (8 / 100) ≠ 0 + 98 * (4 / 100) := by
  constructor
  · norm_num [normalizeRect, appleInsetRect]
  · norm_num

/-- C2 amended: on Apple targets the detected crop is classified "standard"
(4% inset of the crop's own width/height on each side) only when it covers at
least 95% of the source in BOTH dimensions; if either dimension is below 95 it
is classified "modal" (8% inset); Android targets get no inset. -/
theorem C2_apple_inset_policy (r : CropArea) :
    (95 ≤ r.width ∧ 95 ≤ r.height →
      normalizeRect Platform.APPLE r =
        ⟨r.x + r.width * (4 / 100), r.y + r.height * (4 / 100),
         r.width - r.width * (4 / 100) * 2, r.height - r.height * (4 / 100) * 2⟩) ∧
    (r.width < 95 ∨ r.height < 95 →
      normalizeRect Platform.APPLE r =
        ⟨r.x + r.width * (8 / 100), r.y + r.height * (8 / 100),
         r.width - r.width * (8 / 100) * 2, r.height - r.height * (8 / 100) * 2⟩) ∧
    normalizeRect Platform.ANDROID r = r := by
  refine ⟨fun h => ?_, fun h => ?_, ?_⟩
  · have hcond : ¬(r.width < 95 ∨ r.height < 95) := by
      push_neg
      exact h
    simp [normalizeRect, appleInsetRect, hcond]
  · simp [normalizeRect, appleInsetRect, h]
  · simp [normalizeRect]

/-- C2 witness: a 98×98 detected crop (both dimensions at least 95) insets by
4% of the crop width/height; an 80×80 crop insets by 8%. -/
theorem C2_apple_inset_policy_witness :
    normalizeRect Platform.APPLE ⟨0, 0, 98, 98⟩ =
      ⟨0 + 98 * (4 / 100), 0 + 98 * (4 / 100),
       98 - 98 * (4 / 100) * 2, 98 - 98 * (4 / 100) * 2⟩ ∧
    normalizeRect Platform.APPLE ⟨0, 0, 80, 80⟩ =
      ⟨0 + 80 * (8 / 100), 0 + 80 * (8 / 100),
       80 - 80 * (8 / 100) * 2, 80 - 80 * (8 / 100) * 2⟩ := by
  constructor
  · exact (C2_apple_inset_policy ⟨0, 0, 98, 98⟩).1 ⟨by norm_num, by norm_num⟩
  · exact (C2_apple_inset_policy ⟨0, 0, 80, 80⟩).2.1 (Or.inl (by norm_num))

/-- C4: in FRAME export mode the target content rectangle is the full canvas
inset on all sides by 10% of `spec.width` for Android tablets and 12% of
`spec.width` for every other spec, computed from the full canvas; the result
does not depend on the fit mode, so the Apple FIT breathing-room inset is
never compounded with the FRAME inset. -/
theorem C4_frame_target_rect (spec : DeviceSpec) (fm : FitMode) :
    targetRect spec fm ExportMode.FRAME =
      (let fp : ℚ := if spec.platform = Platform.ANDROID ∧ spec.isTablet = true
          then (spec.width : ℚ) * (10 / 100) else (spec.width : ℚ) * (12 / 100)
       ⟨fp, fp, (spec.width : ℚ) - fp * 2, (spec.height : ℚ) - fp * 2⟩) ∧
    targetRect spec fm ExportMode.FRAME = targetRect spec FitMode.STRETCH ExportMode.FRAME := by
  constructor
  · simp [targetRect]
  · simp [targetRect]

/-- C5: in AUTOFIT mode, for every Android tablet spec and every source
rectangle whose aspect is narrower than the target rectangle's, the fit
resolution anchors by height: the draw height equals the target height
exactly, the draw width is `targetH * imgRatio`, and the result is centered
horizontally inside the target rectangle. -/
theorem C5_autofit_height_locked (spec : DeviceSpec) (t : Rect) (sw sh : ℚ)
    (hplat : spec.platform = Platform.ANDROID) (htab : spec.isTablet = true)
    (hrat : sw / sh < t.w / t.h) :
    (resolveDraw spec FitMode.AUTOFIT t sw sh).h = t.h ∧
    (resolveDraw spec FitMode.AUTOFIT t sw sh).w = t.h * (sw / sh) ∧
    (resolveDraw spec FitMode.AUTOFIT t sw sh).x = t.x + (t.w - t.h * (sw / sh)) / 2 ∧
    (resolveDraw spec FitMode.AUTOFIT t sw sh).y = t.y := by
  simp [resolveDraw, hplat, htab, hrat]

/-- C5 witness: the 10-inch Android tablet in FRAME mode with a 1080×1920
portrait source engages the height-locked branch, with the draw rectangle
⟨170, 160, 1260, 2240⟩ inside the target rectangle ⟨160, 160, 1280, 2240⟩. -/
theorem C5_autofit_height_locked_witness :
    (DEVICE_SPECS DeviceType.TABLET_10).platform = Platform.ANDROID ∧
    (DEVICE_SPECS DeviceType.TABLET_10).isTablet = true ∧
    (1080 : ℚ) / 1920 < (1280 : ℚ) / 2240 ∧
    (resolveDraw (DEVICE_SPECS DeviceType.TABLET_10) FitMode.AUTOFIT
        ⟨160, 160, 1280, 2240⟩ 1080 1920).h = 2240 := by
  refine ⟨rfl, rfl, by norm_num, ?_⟩
  exact (C5_autofit_height_locked (DEVICE_SPECS DeviceType.TABLET_10)
    ⟨160, 160, 1280, 2240⟩ 1080 1920 rfl rfl (by norm_num)).1

/-- C10: whenever the source sampling rectangle's aspect exactly equals the
target content rectangle's aspect, FIT produces a destination rectangle
identical to the target content rectangle, with no letterbox offset on either
axis. -/
theorem C10_fit_tiebreak (spec : DeviceSpec) (t : Rect) (sw sh : ℚ)
    (hth : t.h ≠ 0) (heq : sw / sh = t.w / t.h) :
    resolveDraw spec FitMode.FIT t sw sh = t := by
  obtain ⟨tx, ty, tw, th⟩ := t
  simp only [resolveDraw, heq] at *
  rw [if_neg (lt_irrefl _)]
  have hw : th * (tw / th) = tw := by
    field_simp
  rw [hw]
  simp

/-- C10 witness: a 50×100 source into the 100×200 target rectangle (equal
aspect) draws exactly onto the target rectangle. -/
theorem C10_fit_tiebreak_witness :
    (⟨0, 0, 100, 200⟩ : Rect).h ≠ 0 ∧ (50 : ℚ) / 100 = (100 : ℚ) / 200 ∧
    resolveDraw (DEVICE_SPECS DeviceType.PHONE) FitMode.FIT ⟨0, 0, 100, 200⟩ 50 100 =
      ⟨0, 0, 100, 200⟩ :=
  ⟨by norm_num, by norm_num,
   C10_fit_tiebreak (DEVICE_SPECS DeviceType.PHONE) ⟨0, 0, 100, 200⟩ 50 100
     (by norm_num) (by norm_num)⟩

/-- C1: for every spec in the registry, every crop satisfying the data-model
invariants, every fit mode, export mode and adjustments, a successful render
produces an output raster of exactly `spec.width × spec.height` pixels. -/
theorem C1_output_dims (sem : DrawSem) (hasCtx blobOk : Bool) (img : Img) (dt : DeviceType)
    (fm : FitMode) (em : ExportMode) (adj : ImageAdjustments) (crop : CropArea) (fc : ℕ)
    (_hw : 0 < crop.width) (_hh : 0 < crop.height)
    (_hxw : crop.x + crop.width ≤ 100) (_hyh : crop.y + crop.height ≤ 100) :
    ∀ r, processImage sem hasCtx blobOk img (DEVICE_SPECS dt) fm em adj crop fc = some r →
      r.outW = (DEVICE_SPECS dt).width ∧ r.outH = (DEVICE_SPECS dt).height := by
  intro r hr
  unfold processImage at hr
  by_cases h1 : hasCtx = false
  · simp [h1] at hr
  · by_cases h2 : blobOk = true
    · simp only [h1, if_false, h2, if_true] at hr
      obtain rfl := Option.some_injective _ hr.symm
      exact ⟨rfl, rfl⟩
    · simp [h1, h2] at hr

/-- C1 witness: the iPhone 6.7-inch spec in RECTANGLE/FIT with neutral
adjustments and the identity crop renders a 1290×2796 raster. -/
theorem C1_output_dims_witness :
    ((processImage sem0 true true img0 (DEVICE_SPECS DeviceType.IPHONE) FitMode.FIT
        ExportMode.RECTANGLE adj0 crop0 0).getD rdef).outW = 1290 ∧
    ((processImage sem0 true true img0 (DEVICE_SPECS DeviceType.IPHONE) FitMode.FIT
        ExportMode.RECTANGLE adj0 crop0 0).getD rdef).outH = 2796 :=
  C1_output_dims sem0 true true img0 DeviceType.IPHONE FitMode.FIT ExportMode.RECTANGLE
    adj0 crop0 0 (by norm_num [crop0]) (by norm_num [crop0]) (by norm_num [crop0])
    (by norm_num [crop0])
    ((processImage sem0 true true img0 (DEVICE_SPECS DeviceType.IPHONE) FitMode.FIT
        ExportMode.RECTANGLE adj0 crop0 0).getD rdef) rfl

/-- C6: rendering is deterministic — two `processImage` calls with identical
inputs (same master image, spec, fit mode, export mode, adjustments, crop and
chassis color) under the same rasterizer produce identical output rasters. -/
theorem C6_deterministic (sem : DrawSem) (hasCtx blobOk : Bool)
    (img1 img2 : Img) (spec1 spec2 : DeviceSpec) (fm1 fm2 : FitMode) (em1 em2 : ExportMode)
    (adj1 adj2 : ImageAdjustments) (crop1 crop2 : CropArea) (fc1 fc2 : ℕ)
    (himg : img1 = img2) (hspec : spec1 = spec2) (hfm : fm1 = fm2) (hem : em1 = em2)
    (hadj : adj1 = adj2) (hcrop : crop1 = crop2) (hfc : fc1 = fc2) :
    processImage sem hasCtx blobOk img1 spec1 fm1 em1 adj1 crop1 fc1 =
      processImage sem hasCtx blobOk img2 spec2 fm2 em2 adj2 crop2 fc2 := by
  subst himg hspec hfm hem hadj hcrop hfc
  rfl

/-- C6 witness: two renders of the same concrete inputs agree. -/
theorem C6_deterministic_witness :
    img0 = img0 ∧
    processImage sem0 true true img0 (DEVICE_SPECS DeviceType.PHONE) FitMode.AUTOFIT
        ExportMode.FRAME adj0 crop0 0 =
      processImage sem0 true true img0 (DEVICE_SPECS DeviceType.PHONE) FitMode.AUTOFIT
        ExportMode.FRAME adj0 crop0 0 :=
  ⟨rfl, C6_deterministic sem0 true true img0 img0 (DEVICE_SPECS DeviceType.PHONE)
    (DEVICE_SPECS DeviceType.PHONE) FitMode.AUTOFIT FitMode.AUTOFIT ExportMode.FRAME
    ExportMode.FRAME adj0 adj0 crop0 crop0 0 0 rfl rfl rfl rfl rfl rfl rfl⟩

/-! ## Scan-loop lemmas for the border detector -/

/-- The top scan always succeeds and lands between `top` and `bottom` when the
rows it can visit are inside the image. -/
lemma scanTop_bounds (img : Img) (e : ℕ × ℕ × ℕ) :
    ∀ n top bottom, bottom - top ≤ n → bottom < img.height → top ≤ bottom →
      ∃ t, scanTop img e bottom top = some t ∧ top ≤ t ∧ t ≤ bottom := by
  intro n
  induction n with
  | zero =>
    intro top bottom hn hb ht
    have hlt : ¬top < bottom := by omega
    rw [scanTop, if_neg hlt]
    exact ⟨top, rfl, le_refl _, ht⟩
  | succ n ih =>
    intro top bottom hn hb ht
    rw [scanTop]
    by_cases hlt : top < bottom
    · rw [if_pos hlt]
      have hrow : rowUniform img e top =
          some ((List.range img.width).all fun x => isSameColor (img.pix x top) e) := by
        unfold rowUniform
        rw [if_pos (show top < img.height by omega)]
      rw [hrow]
      cases hb2 : (List.range img.width).all fun x => isSameColor (img.pix x top) e
      · exact ⟨top, rfl, le_refl _, le_of_lt hlt⟩
      · obtain ⟨t, h1, h2, h3⟩ := ih (top + 1) bottom (by omega) hb (by omega)
        exact ⟨t, h1, by omega, h3⟩
    · rw [if_neg hlt]
      exact ⟨top, rfl, le_refl _, ht⟩

/-- The bottom scan always succeeds and lands between `top` and `bottom` when
the rows it can visit are inside the image. -/
lemma scanBottom_bounds (img : Img) (e : ℕ × ℕ × ℕ) :
    ∀ n top bottom, bottom ≤ n → bottom < img.height → top ≤ bottom →
      ∃ b, scanBottom img e top bottom = some b ∧ top ≤ b ∧ b ≤ bottom := by
  intro n
  induction n with
  | zero =>
    intro top bottom hn hb ht
    have hlt : ¬top < bottom := by omega
    rw [scanBottom, if_neg hlt]
    exact ⟨bottom, rfl, ht, le_refl _⟩
  | succ n ih =>
    intro top bottom hn hb ht
    rw [scanBottom]
    by_cases hlt : top < bottom
    · rw [if_pos hlt]
      have hrow : rowUniform img e bottom =
          some ((List.range img.width).all fun x => isSameColor (img.pix x bottom) e) := by
        unfold rowUniform
        rw [if_pos hb]
      rw [hrow]
      cases hb2 : (List.range img.width).all fun x => isSameColor (img.pix x bottom) e
      · exact ⟨bottom, rfl, ht, le_refl _⟩
      · obtain ⟨b, h1, h2, h3⟩ := ih top (bottom - 1) (by omega) (by omega) (by omega)
        exact ⟨b, h1, h2, by omega⟩
    · rw [if_neg hlt]
      exact ⟨bottom, rfl, ht, le_refl _⟩

/-- On a constant-color image every in-bounds row is uniform. -/
lemma rowUniform_const (img : Img) (col : ℕ × ℕ × ℕ) (hu : ∀ x y, img.pix x y = col)
    (row : ℕ) (hrow : row < img.height) : rowUniform img col row = some true := by
  unfold rowUniform
  rw [if_pos hrow]
  congr 1
  rw [List.all_eq_true]
  intro x _
  rw [hu]
  simp [isSameColor]

/-- On a constant-color image the top scan advances all the way to `bottom`. -/
lemma scanTop_const (img : Img) (col : ℕ × ℕ × ℕ) (hu : ∀ x y, img.pix x y = col) :
    ∀ n top bottom, bottom - top ≤ n → bottom < img.height → top ≤ bottom →
      scanTop img col bottom top = some bottom := by
  intro n
  induction n with
  | zero =>
    intro top bottom hn hb ht
    have heq : top = bottom := by omega
    rw [scanTop, if_neg (by omega), heq]
  | succ n ih =>
    intro top bottom hn hb ht
    rw [scanTop]
    by_cases hlt : top < bottom
    · rw [if_pos hlt, rowUniform_const img col hu top (by omega)]
      exact ih (top + 1) bottom (by omega) hb (by omega)
    · have heq : top = bottom := by omega
      rw [if_neg hlt, heq]

/-- On a constant-color image of a given size, `detectBorders` degenerates to
the single bottom row: the top scan runs to `top = bottom = height − 1`. -/
lemma detectBorders_uniform100 (img : Img) (hW : img.width = 100) (hH : img.height = 100)
    (col : ℕ × ℕ × ℕ) (hu : ∀ x y, img.pix x y = col) :
    detectBorders true img = some ⟨0, 99, 100, 1⟩ := by
  have hg : getPixel img 0 0 = some col := by
    unfold getPixel
    rw [if_pos ⟨by omega, by omega⟩, hu]
  have h1 : scanTop img col (img.height - 1) 0 = some (img.height - 1) :=
    scanTop_const img col hu img.height 0 (img.height - 1) (by omega) (by omega) (by omega)
  have h2 : scanBottom img col (img.height - 1) (img.height - 1) = some (img.height - 1) := by
    rw [scanBottom, if_neg (lt_irrefl _)]
  unfold detectBorders
  rw [if_neg (by simp), hg]
  dsimp only
  rw [h1]
  dsimp only
  rw [h2]
  dsimp only
  rw [hW, hH]
  norm_num

/-- A 1×1 concrete image. -/
def oneImg : Img := ⟨1, 1, fun _ _ => (0, 0, 0)⟩

/-- On the 1×1 image both scan loops exit immediately and the detector
returns the identity crop. -/
lemma detectBorders_oneImg : detectBorders true oneImg = some ⟨0, 0, 100, 100⟩ := by
  have h1 : scanTop oneImg (0, 0, 0) (oneImg.height - 1) 0 = some 0 := by
    rw [scanTop, if_neg (by norm_num [oneImg])]
  have h2 : scanBottom oneImg (0, 0, 0) 0 (oneImg.height - 1) = some 0 := by
    rw [scanBottom, if_neg (by norm_num [oneImg])]
    norm_num [oneImg]
  have hg : getPixel oneImg 0 0 = some (0, 0, 0) := rfl
  unfold detectBorders
  rw [if_neg (by simp), hg]
  dsimp only
  rw [h1]
  dsimp only
  rw [h2]
  dsimp only
  norm_num [oneImg]

/-- C8 counterexample: on a uniform-color 100×100 image `detectBorders`
returns `y = 99` — the degenerate region is the single BOTTOM row, not a
region at `y = 0` as the claim states. -/
theorem C8_counterexample :
    (detectBorders true uniformImg).map CropArea.y = some 99 ∧ (99 : ℚ) ≠ 0 := by
  constructor
  · rw [detectBorders_uniform100 uniformImg rfl rfl (5, 5, 5) (fun _ _ => rfl)]
    rfl
  · norm_num

/-- C8 amended: on a uniform-color 100×100 image `detectBorders` does not
fail and returns exactly `{x: 0, y: 99, width: 100, height: 1}` — the
degenerate `top = bottom` single-row region at the bottom of the image, whose
height 1 is near 0 and whose fields satisfy `width, height ≤ 100` and
`x, y ≥ 0`. -/
theorem C8_uniform_detect (img : Img) (hW : img.width = 100) (hH : img.height = 100)
    (col : ℕ × ℕ × ℕ) (hu : ∀ x y, img.pix x y = col) :
    detectBorders true img = some ⟨0, 99, 100, 1⟩ ∧
    (0 : ℚ) ≤ 0 ∧ (0 : ℚ) ≤ 99 ∧ (100 : ℚ) ≤ 100 ∧ (1 : ℚ) ≤ 100 :=
  ⟨detectBorders_uniform100 img hW hH col hu, le_refl 0, by norm_num, le_refl 100, by norm_num⟩

/-- C8 witness: the concrete uniform 100×100 image. -/
theorem C8_uniform_detect_witness :
    detectBorders true uniformImg = some ⟨0, 99, 100, 1⟩ :=
  (C8_uniform_detect uniformImg rfl rfl (5, 5, 5) (fun _ _ => rfl)).1

/-- C9: for every decoded image with width ≥ 1 and height ≥ 1 the scan loops
of `detectBorders` terminate without out-of-bounds pixel reads (the checked
model returns `some`), and the result always satisfies the full `CropArea`
invariant, with `x = 0` and `width = 100` since the left/right boundaries are
never advanced. -/
theorem C9_detect_invariants (img : Img) (hW : 1 ≤ img.width) (hH : 1 ≤ img.height) :
    (detectBorders true img).isSome = true ∧
    ∀ r, detectBorders true img = some r →
      r.x = 0 ∧ r.width = 100 ∧ r.x + r.width ≤ 100 ∧ r.y + r.height ≤ 100 ∧
      0 < r.width ∧ 0 < r.height ∧ 0 ≤ r.y := by
  have hg : getPixel img 0 0 = some (img.pix 0 0) := by
    unfold getPixel
    rw [if_pos ⟨by omega, by omega⟩]
  obtain ⟨t, ht, ht0, htb⟩ := scanTop_bounds img (img.pix 0 0) img.height 0 (img.height - 1)
    (by omega) (by omega) (by omega)
  obtain ⟨b, hb, hbt, hbb⟩ := scanBottom_bounds img (img.pix 0 0) img.height t (img.height - 1)
    (by omega) (by omega) htb
  have hdet : detectBorders true img =
      some ⟨((0 : ℕ) : ℚ) / (img.width : ℚ) * 100,
            (t : ℚ) / (img.height : ℚ) * 100,
            (((img.width - 1 : ℕ) : ℚ) - ((0 : ℕ) : ℚ) + 1) / (img.width : ℚ) * 100,
            ((b : ℚ) - (t : ℚ) + 1) / (img.height : ℚ) * 100⟩ := by
    unfold detectBorders
    rw [if_neg (by simp), hg]
    dsimp only
    rw [ht]
    dsimp only
    rw [hb]
  have hwQ : (0 : ℚ) < (img.width : ℚ) := by exact_mod_cast hW
  have hhQ : (0 : ℚ) < (img.height : ℚ) := by exact_mod_cast hH
  have hx0 : ((0 : ℕ) : ℚ) / (img.width : ℚ) * 100 = 0 := by
    norm_num
  have hw100 : (((img.width - 1 : ℕ) : ℚ) - ((0 : ℕ) : ℚ) + 1) / (img.width : ℚ) * 100 = 100 := by
    rw [Nat.cast_sub hW]
    field_simp
  have htQ : (0 : ℚ) ≤ (t : ℚ) := by positivity
  have htbQ : (t : ℚ) ≤ (b : ℚ) := by exact_mod_cast hbt
  have hbQ : (b : ℚ) + 1 ≤ (img.height : ℚ) := by
    have : b + 1 ≤ img.height := by omega
    exact_mod_cast this
  constructor
  · rw [hdet]
    rfl
  · intro r hr
    rw [hdet] at hr
    obtain rfl := Option.some_injective _ hr.symm
    refine ⟨hx0, hw100, ?_, ?_, ?_, ?_, ?_⟩
    · rw [hx0, hw100]
      norm_num
    · have hsum : (t : ℚ) / (img.height : ℚ) * 100 +
          ((b : ℚ) - (t : ℚ) + 1) / (img.height : ℚ) * 100 =
          ((b : ℚ) + 1) / (img.height : ℚ) * 100 := by
        ring
      rw [hsum]
      have h1 : ((b : ℚ) + 1) / (img.height : ℚ) ≤ 1 := by
        rw [div_le_one hhQ]
        exact hbQ
      nlinarith
    · rw [hw100]
      norm_num
    · have hnum : (0 : ℚ) < (b : ℚ) - (t : ℚ) + 1 := by linarith
      positivity
    · positivity

/-- C9 witness: a 1×1 image scans without failure and returns the identity
crop, which satisfies every invariant. -/
theorem C9_detect_invariants_witness :
    (detectBorders true oneImg).isSome = true ∧
    ((⟨0, 0, 100, 100⟩ : CropArea).x = 0 ∧ (⟨0, 0, 100, 100⟩ : CropArea).width = 100 ∧
     (⟨0, 0, 100, 100⟩ : CropArea).x + (⟨0, 0, 100, 100⟩ : CropArea).width ≤ 100 ∧
     (⟨0, 0, 100, 100⟩ : CropArea).y + (⟨0, 0, 100, 100⟩ : CropArea).height ≤ 100 ∧
     0 < (⟨0, 0, 100, 100⟩ : CropArea).width ∧ 0 < (⟨0, 0, 100, 100⟩ : CropArea).height ∧
     0 ≤ (⟨0, 0, 100, 100⟩ : CropArea).y) :=
  ⟨(C9_detect_invariants oneImg (by decide) (by decide)).1,
   (C9_detect_invariants oneImg (by decide) (by decide)).2 ⟨0, 0, 100, 100⟩ detectBorders_oneImg⟩

/-! ## Pointwise characterization of the sharpening pass -/

/-- The value the sharpening loop stores at byte index `i` of an interior
cell: the alpha byte is copied, color channels get the clamped convolution. -/
def pointVal (w : ℕ) (ker : List ℚ) (data : ℕ → ℕ) (i : ℕ) : ℕ :=
  if i % 4 = 3 then data i
  else clampU8 (convSum w data ker (i / 4 % w) (i / 4 / w) (i % 4))

/-- `pointVal` at a decomposed index `(y * w + x) * 4 + c`. -/
lemma pointVal_at (w : ℕ) (ker : List ℚ) (data : ℕ → ℕ) (x y c : ℕ)
    (hx : x < w) (hc : c < 4) :
    pointVal w ker data ((y * w + x) * 4 + c) =
      if c = 3 then data ((y * w + x) * 4 + 3)
      else clampU8 (convSum w data ker x y c) := by
  have hw : 0 < w := by omega
  have hp4 : ((y * w + x) * 4 + c) % 4 = c := by
    rw [Nat.mul_comm (y * w + x) 4, Nat.mul_add_mod]
    exact Nat.mod_eq_of_lt hc
  have hdiv4 : ((y * w + x) * 4 + c) / 4 = y * w + x := by
    rw [Nat.mul_comm (y * w + x) 4, Nat.mul_add_div (by norm_num)]
    omega
  have hpm : (y * w + x) % w = x := by
    rw [Nat.add_comm, Nat.add_mul_mod_self_right]
    exact Nat.mod_eq_of_lt hx
  have hpd : (y * w + x) / w = y := by
    rw [Nat.add_comm, Nat.add_mul_div_right _ _ hw, Nat.div_eq_of_lt hx, Nat.zero_add]
  unfold pointVal
  rw [hp4, hdiv4, hpm, hpd]
  by_cases h3 : c = 3
  · subst h3
    simp
  · simp [h3]

/-- One cell write of the sharpening loop, observed at an arbitrary index:
only the 4 bytes of the cell change, and their new value depends only on the
index and the input buffer. -/
lemma cellWrite_apply (w : ℕ) (ker : List ℚ) (data out : ℕ → ℕ) (y x : ℕ)
    (hx : x < w) (i : ℕ) :
    cellWrite w ker data out y x i =
      if (y * w + x) * 4 ≤ i ∧ i < (y * w + x) * 4 + 4 then pointVal w ker data i
      else out i := by
  have hr3 : List.range 3 = [0, 1, 2] := rfl
  unfold cellWrite
  rw [hr3]
  simp only [List.foldl_cons, List.foldl_nil, Function.update_apply]
  by_cases hin : (y * w + x) * 4 ≤ i ∧ i < (y * w + x) * 4 + 4
  · rw [if_pos hin]
    by_cases h3 : i = (y * w + x) * 4 + 3
    · rw [if_pos h3, h3, pointVal_at w ker data x y 3 hx (by norm_num)]
      simp
    · rw [if_neg h3]
      by_cases h2 : i = (y * w + x) * 4 + 2
      · rw [if_pos h2, h2, pointVal_at w ker data x y 2 hx (by norm_num)]
        simp
      · rw [if_neg h2]
        by_cases h1 : i = (y * w + x) * 4 + 1
        · rw [if_pos h1, h1, pointVal_at w ker data x y 1 hx (by norm_num)]
          simp
        · rw [if_neg h1]
          have h0 : i = (y * w + x) * 4 + 0 := by omega
          rw [if_pos h0, h0, pointVal_at w ker data x y 0 hx (by norm_num)]
          simp
  · rw [if_neg hin, if_neg (by omega), if_neg (by omega), if_neg (by omega), if_neg (by omega)]

/-- The inner `x` loop of the sharpening pass, observed at an arbitrary
index. -/
lemma row_foldl_apply (w : ℕ) (ker : List ℚ) (data : ℕ → ℕ) (y : ℕ) :
    ∀ xs : List ℕ, (∀ x ∈ xs, x < w) → ∀ out i,
      (xs.foldl (fun o x => cellWrite w ker data o y x) out) i =
        if ∃ x ∈ xs, (y * w + x) * 4 ≤ i ∧ i < (y * w + x) * 4 + 4
        then pointVal w ker data i else out i := by
  intro xs
  induction xs with
  | nil =>
    intro _ out i
    simp
  | cons a as ih =>
    intro hlt out i
    simp only [List.foldl_cons]
    rw [ih (fun x hx => hlt x (List.mem_cons_of_mem a hx)) (cellWrite w ker data out y a) i]
    by_cases hex : ∃ x ∈ as, (y * w + x) * 4 ≤ i ∧ i < (y * w + x) * 4 + 4
    · rw [if_pos hex]
      obtain ⟨x, hx1, hx2⟩ := hex
      rw [if_pos ⟨x, List.mem_cons_of_mem a hx1, hx2⟩]
    · rw [if_neg hex, cellWrite_apply w ker data out y a (hlt a (List.mem_cons_self a as)) i]
      by_cases hina : (y * w + a) * 4 ≤ i ∧ i < (y * w + a) * 4 + 4
      · rw [if_pos hina, if_pos ⟨a, List.mem_cons_self a as, hina⟩]
      · rw [if_neg hina, if_neg ?_]
        rintro ⟨x, hx1, hx2⟩
        rcases List.mem_cons.mp hx1 with rfl | hx3
        · exact hina hx2
        · exact hex ⟨x, hx3, hx2⟩

/-- The nested `y`/`x` loops of the sharpening pass, observed at an arbitrary
index. -/
lemma grid_foldl_apply (w : ℕ) (ker : List ℚ) (data : ℕ → ℕ) (xs : List ℕ)
    (hxs : ∀ x ∈ xs, x < w) :
    ∀ ys : List ℕ, ∀ out i,
      (ys.foldl (fun out y => xs.foldl (fun o x => cellWrite w ker data o y x) out) out) i =
        if ∃ y ∈ ys, ∃ x ∈ xs, (y * w + x) * 4 ≤ i ∧ i < (y * w + x) * 4 + 4
        then pointVal w ker data i else out i := by
  intro ys
  induction ys with
  | nil =>
    intro out i
    simp
  | cons b bs ih =>
    intro out i
    simp only [List.foldl_cons]
    rw [ih]
    by_cases hex : ∃ y ∈ bs, ∃ x ∈ xs, (y * w + x) * 4 ≤ i ∧ i < (y * w + x) * 4 + 4
    · rw [if_pos hex]
      obtain ⟨y2, hy1, hy2⟩ := hex
      rw [if_pos ⟨y2, List.mem_cons_of_mem b hy1, hy2⟩]
    · rw [if_neg hex, row_foldl_apply w ker data b xs hxs out i]
      by_cases hinb : ∃ x ∈ xs, (b * w + x) * 4 ≤ i ∧ i < (b * w + x) * 4 + 4
      · rw [if_pos hinb, if_pos ⟨b, List.mem_cons_self b bs, hinb⟩]
      · rw [if_neg hinb, if_neg ?_]
        rintro ⟨y2, hy1, hy2⟩
        rcases List.mem_cons.mp hy1 with rfl | hy3
        · exact hinb hy2
        · exact hex ⟨y2, hy3, hy2⟩

/-- `applySharpness` with a positive amount, observed at an arbitrary index:
interior-cell bytes take the loop's value, everything else is the
zero-initialized buffer. -/
lemma applySharpness_apply (w h : ℕ) (amount : ℚ) (data : ℕ → ℕ)
    (hamt : 0 < amount) (i : ℕ) :
    applySharpness w h amount data i =
      if ∃ y ∈ List.range' 1 (h - 1 - 1), ∃ x ∈ List.range' 1 (w - 1 - 1),
          (y * w + x) * 4 ≤ i ∧ i < (y * w + x) * 4 + 4
      then pointVal w (kernelOf (amount / 300)) data i else 0 := by
  unfold applySharpness
  rw [if_neg (not_le.mpr hamt)]
  exact grid_foldl_apply w (kernelOf (amount / 300)) data (List.range' 1 (w - 1 - 1))
    (fun x hx => by
      have := List.mem_range'_1.mp hx
      omega)
    (List.range' 1 (h - 1 - 1)) (fun _ => 0) i

/-- Expanding the convolution fold for the source's kernel: the corner taps
carry weight 0, the four edge-adjacent taps carry `−a`, the center carries
`1 + 4a`. -/
lemma convSum_kernelOf (w : ℕ) (a : ℚ) (data : ℕ → ℕ) (x y c : ℕ)
    (hx1 : 1 ≤ x) (hy1 : 1 ≤ y) :
    convSum w data (kernelOf a) x y c =
      (1 + 4 * a) * (data ((y * w + x) * 4 + c) : ℚ)
      - a * ((data (((y - 1) * w + x) * 4 + c) : ℚ)
        + (data (((y + 1) * w + x) * 4 + c) : ℚ)
        + (data ((y * w + x - 1) * 4 + c) : ℚ)
        + (data ((y * w + x + 1) * 4 + c) : ℚ)) := by
  have hr3 : List.range 3 = [0, 1, 2] := rfl
  have e1 : y + 1 - 1 = y := by omega
  have e2 : y + 2 - 1 = y + 1 := by omega
  have e3 : x + 1 - 1 = x := by omega
  have e4 : x + 2 - 1 = x + 1 := by omega
  have e5 : y * w + (x - 1) = y * w + x - 1 := by omega
  unfold convSum kernelOf
  rw [hr3]
  simp only [List.foldl_cons, List.foldl_nil, List.getD, Nat.zero_mul, Nat.one_mul,
    Nat.zero_add, Nat.add_zero, List.getD_cons_zero, List.getD_cons_succ, List.get?_cons_zero]
  norm_num [e1, e2, e3, e4]
  rw [e5]
  ring_nf

/-- C3 counterexample: on a 3×3 canvas whose bytes are all 200 and sharpness
amount 30, byte index 3 — the alpha channel of the border pixel (0,0) — comes
out 0 after the sharpening pass, not its pre-sharpening value 200: the border
ring is overwritten with zeros (transparent black) and its alpha is not
preserved. -/
theorem C3_counterexample :
    applySharpness 3 3 30 (fun _ => 200) 3 = 0 ∧ (fun _ : ℕ => (200 : ℕ)) 3 = 200 ∧
    (0 : ℕ) ≠ 200 := by
  refine ⟨by decide, rfl, by decide⟩

/-- C3 amended: when `adjustments.sharpness > 0` the sharpening pass replaces
the whole canvas: each interior pixel's color channels get the clamped 3×3
unsharp-mask convolution with off-center weight `amount/300` and center
weight `1 + 4*amount/300`, each interior pixel's alpha channel is preserved
unchanged, and every byte outside the interior — in particular the whole
1-pixel border ring — is set to 0 (transparent black), NOT left at its
pre-sharpening value. -/
theorem C3_sharpness_convolution (w h : ℕ) (amount : ℚ) (data : ℕ → ℕ)
    (hamt : 0 < amount) (x y c : ℕ) (hx : x < w) (hc : c < 4) :
    applySharpness w h amount data ((y * w + x) * 4 + c) =
      if 1 ≤ x ∧ x + 1 < w ∧ 1 ≤ y ∧ y + 1 < h then
        if c = 3 then data ((y * w + x) * 4 + 3)
        else clampU8 ((1 + 4 * (amount / 300)) * (data ((y * w + x) * 4 + c) : ℚ)
          - (amount / 300) * ((data (((y - 1) * w + x) * 4 + c) : ℚ)
            + (data (((y + 1) * w + x) * 4 + c) : ℚ)
            + (data ((y * w + x - 1) * 4 + c) : ℚ)
            + (data ((y * w + x + 1) * 4 + c) : ℚ)))
      else 0 := by
  rw [applySharpness_apply w h amount data hamt]
  have hiff : (∃ y2 ∈ List.range' 1 (h - 1 - 1), ∃ x2 ∈ List.range' 1 (w - 1 - 1),
      (y2 * w + x2) * 4 ≤ (y * w + x) * 4 + c ∧ (y * w + x) * 4 + c < (y2 * w + x2) * 4 + 4)
      ↔ (1 ≤ x ∧ x + 1 < w ∧ 1 ≤ y ∧ y + 1 < h) := by
    constructor
    · rintro ⟨y2, hy2, x2, hx2, hr1, hr2⟩
      have hy2m := List.mem_range'_1.mp hy2
      have hx2m := List.mem_range'_1.mp hx2
      have hcell : y2 * w + x2 = y * w + x := by omega
      have hx2w : x2 < w := by omega
      have hw : 0 < w := by omega
      have hm1 : (y2 * w + x2) % w = x2 := by
        rw [Nat.add_comm, Nat.add_mul_mod_self_right]
        exact Nat.mod_eq_of_lt hx2w
      have hm2 : (y * w + x) % w = x := by
        rw [Nat.add_comm, Nat.add_mul_mod_self_right]
        exact Nat.mod_eq_of_lt hx
      have hd1 : (y2 * w + x2) / w = y2 := by
        rw [Nat.add_comm, Nat.add_mul_div_right _ _ hw, Nat.div_eq_of_lt hx2w, Nat.zero_add]
      have hd2 : (y * w + x) / w = y := by
        rw [Nat.add_comm, Nat.add_mul_div_right _ _ hw, Nat.div_eq_of_lt hx, Nat.zero_add]
      rw [hcell] at hm1 hd1
      rw [hm2] at hm1
      rw [hd2] at hd1
      omega
    · rintro ⟨h1, h2, h3, h4⟩
      exact ⟨y, List.mem_range'_1.mpr (by omega), x, List.mem_range'_1.mpr (by omega),
        by omega, by omega⟩
  rw [if_congr hiff rfl rfl]
  by_cases hint : 1 ≤ x ∧ x + 1 < w ∧ 1 ≤ y ∧ y + 1 < h
  · rw [if_pos hint, if_pos hint,
      pointVal_at w (kernelOf (amount / 300)) data x y c hx hc]
    by_cases h3 : c = 3
    · rw [if_pos h3, if_pos h3]
    · rw [if_neg h3, if_neg h3,
        convSum_kernelOf w (amount / 300) data x y c hint.1 hint.2.2.1]
  · rw [if_neg hint, if_neg hint]

/-- C3 witness: a 3×3 all-200 canvas with amount 30 at the interior pixel
(1,1), red channel: the stored byte is the clamped explicit unsharp-mask
formula. -/
theorem C3_sharpness_convolution_witness :
    (0 : ℚ) < 30 ∧ (1 : ℕ) < 3 ∧ (0 : ℕ) < 4 ∧
    applySharpness 3 3 30 (fun _ => 200) ((1 * 3 + 1) * 4 + 0) =
      clampU8 ((1 + 4 * ((30 : ℚ) / 300)) * 200 -
        ((30 : ℚ) / 300) * (200 + 200 + 200 + 200)) := by
  refine ⟨by norm_num, by norm_num, by norm_num, ?_⟩
  rw [C3_sharpness_convolution 3 3 30 (fun _ => 200) (by norm_num) 1 1 0
    (by norm_num) (by norm_num)]
  norm_num
